import Mathlib

/-!
Shallow embedding of `src/server/scrapers.ts` (event scrapers for Lexington, KY).

Modelling conventions:
* A JavaScript `Date` holds an integer count of milliseconds; every operation the
  source performs (`setDate`, `setHours`, `getDay`, `getTime`, comparison) acts on the
  local-time calendar.  We model the local timeline as `Nat` milliseconds on a
  DST-free linear calendar: `dayStart t` is local midnight of `t`'s day and
  `getDay t` is the JS day-of-week (0 = Sunday); the `+ 4` matches the JS epoch
  convention (day 0 of the timeline is a Thursday, as 1970-01-01 was).
* `Date.prototype.toISOString` is an injective rendering of the millisecond value;
  we model it by the decimal rendering `isoString`, which shares the properties the
  deduplication key depends on: distinct instants give distinct strings, and the
  string never contains the separator character.
* The `try { ... } catch { return [] }` wrapper of every function is modelled by an
  `Except`-valued body consumed by `tryCatchList`, which maps any error to `[]`.
* The JS `Map` used for deduplication keeps the position of the first insertion of a
  key while later insertions overwrite the value: `insertPair` / `mapFromList`.
* `Array.prototype.sort` with comparator `a.startTime - b.startTime` is (per the
  ECMAScript specification) a stable ascending sort; we model it by
  `List.insertionSort` with `a.startTime ≤ b.startTime`, and prove that this is
  sorted and stable, which pins down the unique list JS would produce.
-/

namespace Scrapers

def msPerHour : Nat := 3600000

def msPerDay : Nat := 86400000

/-- Local midnight of the day containing instant `t`. -/
def dayStart (t : Nat) : Nat := t / msPerDay * msPerDay

/-- JS `Date.prototype.getDay`: 0 = Sunday, ..., 6 = Saturday. -/
def getDay (t : Nat) : Nat := (t / msPerDay + 4) % 7

/-- Decimal digit character. -/
def dg (n : Nat) : Char :=
  match n with
  | 0 => '0' | 1 => '1' | 2 => '2' | 3 => '3' | 4 => '4'
  | 5 => '5' | 6 => '6' | 7 => '7' | 8 => '8' | _ => '9'

/-- Fuel-driven decimal rendering (most significant digit first). -/
def decCharsAux : Nat → Nat → List Char
  | 0, _ => []
  | fuel + 1, n => if n < 10 then [dg n] else decCharsAux fuel (n / 10) ++ [dg (n % 10)]

def decChars (n : Nat) : List Char := decCharsAux (n + 1) n

/-- Models `Date.prototype.toISOString`: an injective, separator-free rendering of the
millisecond timestamp (see the module comment). -/
def isoString (t : Nat) : String := ⟨decChars t⟩

/-- The `ScrapedEvent` interface of `scrapers.ts`. -/
structure ScrapedEvent where
  title : String
  description : Option String
  startTime : Nat
  location : Option String
  imageUrl : Option String
  sourceUrl : String
  category : String
  isFree : Bool
deriving DecidableEq

/-- Models `try { body } catch { return [] }`: any error degrades to the empty list. -/
def tryCatchList (r : Except String (List ScrapedEvent)) : List ScrapedEvent :=
  match r with
  | Except.ok l => l
  | Except.error _ => []

/-- The farmers-market record pushed at `scrapers.ts:40-49`, parameterised by the
computed start time. -/
def farmersMarketEvent (startTime : Nat) : ScrapedEvent :=
  { title := "Downtown Farmers Market"
    description := some "Fresh local produce, honey, plants, and artisan goods. Support local farmers and producers."
    startTime := startTime
    location := some "Tandy Centennial Park, Lexington, KY"
    imageUrl := some "https://images.unsplash.com/photo-1488459716781-31db52582fe9?auto=format&fit=crop&q=80"
    sourceUrl := "https://www.lfmky.com/"
    category := "food"
    isFree := true }

/-- `scrapers.ts:35-37`: `now.getDate() + ((6 - now.getDay() + 7) % 7) + i*7` then
`setHours(8,0,0,0)`.  `6 - getDay + 7` is written `6 + 7 - getDay` (equal on `getDay < 7`,
and truncation-free on `Nat`). -/
def farmersCandidate (now i : Nat) : Nat :=
  dayStart now + ((6 + 7 - getDay now) % 7 + i * 7) * msPerDay + 8 * msPerHour

def scrapeLexingtonFarmersMarketBody (now : Nat) : Except String (List ScrapedEvent) :=
  Except.ok <| (List.range 4).filterMap fun i =>
    if now < farmersCandidate now i then some (farmersMarketEvent (farmersCandidate now i))
    else none

def scrapeLexingtonFarmersMarket (now : Nat) : List ScrapedEvent :=
  tryCatchList (scrapeLexingtonFarmersMarketBody now)

/-- One entry of the `churches` table at `scrapers.ts:70-87`. -/
structure Church where
  name : String
  event : String
  day : Nat
  time : Nat
  location : String
  url : String
deriving DecidableEq

def southland : Church :=
  { name := "Southland Christian Church"
    event := "Sunday Worship Service"
    day := 0
    time := 10
    location := "3530 Man O War Blvd, Lexington, KY"
    url := "https://www.southland.org/" }

def firstPresbyterian : Church :=
  { name := "First Presbyterian Church"
    event := "Wednesday Evening Fellowship Dinner"
    day := 3
    time := 18
    location := "171 N Mill St, Lexington, KY"
    url := "https://www.fpclexington.org/" }

def churches : List Church := [southland, firstPresbyterian]

/-- The record pushed at `scrapers.ts:102-111`. -/
def churchEvent (c : Church) (startTime : Nat) : ScrapedEvent :=
  { title := c.name ++ ": " ++ c.event
    description := some ("Join us for " ++ c.event ++ " at " ++ c.name ++ ".")
    startTime := startTime
    location := some c.location
    imageUrl := some "https://images.unsplash.com/photo-1516306574312-e4c05dab37fa?auto=format&fit=crop&q=80"
    sourceUrl := c.url
    category := "community"
    isFree := true }

/-- `scrapers.ts:91-94`: next occurrence of the church's weekday at its hour.
`church.day - getDay + 7` is written `day + 7 - getDay` (truncation-free on `Nat`). -/
def churchBase (now : Nat) (c : Church) : Nat :=
  dayStart now + ((c.day + 7 - getDay now) % 7) * msPerDay + c.time * msPerHour

/-- `scrapers.ts:97-113`: eight weekly occurrences, future-only. -/
def churchOccurrences (now : Nat) (c : Church) : List ScrapedEvent :=
  (List.range 8).filterMap fun week =>
    if now < churchBase now c + week * 7 * msPerDay then
      some (churchEvent c (churchBase now c + week * 7 * msPerDay))
    else none

def scrapeChurchEventsBody (now : Nat) : Except String (List ScrapedEvent) :=
  Except.ok (churches.flatMap (churchOccurrences now))

def scrapeChurchEvents (now : Nat) : List ScrapedEvent :=
  tryCatchList (scrapeChurchEventsBody now)

/-- One entry of the `communityEvents` table at `scrapers.ts:133-158`. -/
structure CommunityTemplate where
  title : String
  description : String
  location : String
  date : Nat
  time : Nat
  url : String
deriving DecidableEq

def cleanupTemplate : CommunityTemplate :=
  { title := "Community Cleanup Day at Shriners Park"
    description := "Join neighbors to clean and beautify our local park. All ages welcome!"
    location := "Shriners Park, Lexington, KY"
    date := 7
    time := 9
    url := "https://www.nextdoor.com/" }

def yardSaleTemplate : CommunityTemplate :=
  { title := "East Side Neighborhood Yard Sale"
    description := "Multi-family yard sale across East Side neighborhood. Great deals on furniture, clothes, and more!"
    location := "East Side, Lexington, KY"
    date := 14
    time := 8
    url := "https://www.craigslist.org/search/sss" }

def paintSipTemplate : CommunityTemplate :=
  { title := "Paint & Sip Night"
    description := "Paint while enjoying beverages with friends. No experience needed. Supplies provided."
    location := "Downtown Lexington Community Center"
    date := 4
    time := 19
    url := "https://www.lexingtonky.gov/" }

def communityEvents : List CommunityTemplate :=
  [cleanupTemplate, yardSaleTemplate, paintSipTemplate]

/-- Does `sub` occur at the head of `l`? -/
def leadingMatch : List Char → List Char → Bool
  | [], _ => true
  | _ :: _, [] => false
  | c :: cs, d :: ds => c == d && leadingMatch cs ds

/-- Does `sub` occur anywhere in `l`? -/
def containsSub (sub : List Char) : List Char → Bool
  | [] => leadingMatch sub []
  | c :: t => leadingMatch sub (c :: t) || containsSub sub t

/-- JS `String.prototype.includes`: substring occurrence test. -/
def includes (s sub : String) : Bool := containsSub sub.data s.data

/-- The record pushed at `scrapers.ts:166-175`; `isFree` is `title.includes("Cleanup")`. -/
def communityEvent (t : CommunityTemplate) (startTime : Nat) : ScrapedEvent :=
  { title := t.title
    description := some t.description
    startTime := startTime
    location := some t.location
    imageUrl := some "https://images.unsplash.com/photo-1552664730-d307ca884978?auto=format&fit=crop&q=80"
    sourceUrl := t.url
    category := "community"
    isFree := includes t.title "Cleanup" }

/-- `scrapers.ts:161-163`: `now + t.date` days, hour set to `t.time`. -/
def communityCandidate (now : Nat) (t : CommunityTemplate) : Nat :=
  dayStart now + t.date * msPerDay + t.time * msPerHour

def scrapeYardSalesAndCommunityEventsBody (now : Nat) : Except String (List ScrapedEvent) :=
  Except.ok <| communityEvents.filterMap fun t =>
    if now < communityCandidate now t then some (communityEvent t (communityCandidate now t))
    else none

def scrapeYardSalesAndCommunityEvents (now : Nat) : List ScrapedEvent :=
  tryCatchList (scrapeYardSalesAndCommunityEventsBody now)

/-- JS string interpolation of a possibly-`undefined` field. -/
def locString : Option String → String
  | some s => s
  | none => "undefined"

/-- The composite key template. -/
def mkKey (title : String) (t : Nat) (loc : String) : String :=
  title ++ "|" ++ isoString t ++ "|" ++ loc

/-- `scrapers.ts:205`: the dedup key of a record. -/
def eventKey (e : ScrapedEvent) : String :=
  mkKey e.title e.startTime (locString e.location)

/-- One step of JS `Map` construction: an existing key keeps its position but its
value is overwritten; a new key is appended. -/
def insertPair (m : List (String × ScrapedEvent)) (k : String) (v : ScrapedEvent) :
    List (String × ScrapedEvent) :=
  if m.any fun p => p.1 == k then m.map fun p => if p.1 == k then (k, v) else p
  else m ++ [(k, v)]

/-- `new Map(allEvents.map(e => [key e, e]))` as an ordered association list. -/
def mapFromList (l : List ScrapedEvent) : List (String × ScrapedEvent) :=
  l.foldl (fun m e => insertPair m (eventKey e) e) []

/-- `scrapers.ts:202-209`: the values of the dedup map, in insertion order. -/
def dedupList (l : List ScrapedEvent) : List ScrapedEvent :=
  (mapFromList l).map Prod.snd

/-- The sort relation used by `uniqueEvents.sort((a, b) => a.startTime - b.startTime)`. -/
def byStart (a b : ScrapedEvent) : Prop := a.startTime ≤ b.startTime

instance : DecidableRel byStart := fun a b => Nat.decLe a.startTime b.startTime

instance : IsTotal ScrapedEvent byStart := ⟨fun a b => Nat.le_total a.startTime b.startTime⟩

instance : IsTrans ScrapedEvent byStart := ⟨fun _ _ _ h h2 => Nat.le_trans h h2⟩

/-- `scrapers.ts:212`: stable ascending sort by `startTime`. -/
def sortByStart (l : List ScrapedEvent) : List ScrapedEvent :=
  List.insertionSort byStart l

/-- `scrapers.ts:199`: concatenation of the three generators' outputs. -/
def allEventsList (now : Nat) : List ScrapedEvent :=
  scrapeLexingtonFarmersMarket now ++ scrapeChurchEvents now ++
    scrapeYardSalesAndCommunityEvents now

/-- The combine/dedup/sort pipeline of `fetchAllEvents`, over the three generator
results it destructures. -/
def fetchAllEventsCore (farmersMarket churchList community : List ScrapedEvent) :
    List ScrapedEvent :=
  sortByStart (dedupList (farmersMarket ++ churchList ++ community))

def fetchAllEventsBody (now : Nat) : Except String (List ScrapedEvent) :=
  Except.ok (fetchAllEventsCore (scrapeLexingtonFarmersMarket now) (scrapeChurchEvents now)
    (scrapeYardSalesAndCommunityEvents now))

/-- `scrapers.ts:190-219`. -/
def fetchAllEvents (now : Nat) : List ScrapedEvent :=
  tryCatchList (fetchAllEventsBody now)

/-- The keys of `l` in order of first occurrence, each key once. -/
def firstKeys (l : List ScrapedEvent) : List String :=
  l.foldl (fun acc e => if eventKey e ∈ acc then acc else acc ++ [eventKey e]) []


/-! ### Arithmetic facts about the time model -/

theorem dayStart_le (t : Nat) : dayStart t ≤ t := by
  unfold dayStart msPerDay; omega

theorem lt_dayStart_add (t : Nat) : t < dayStart t + msPerDay := by
  unfold dayStart msPerDay; omega

theorem candidate_div (t k h : Nat) (hh : h < msPerDay) :
    (dayStart t + k * msPerDay + h) / msPerDay = t / msPerDay + k := by
  unfold dayStart msPerDay at *; omega

theorem candidate_getDay (t k h : Nat) (hh : h < msPerDay) :
    getDay (dayStart t + k * msPerDay + h) = (getDay t + k) % 7 := by
  unfold getDay
  rw [candidate_div t k h hh]
  omega

theorem candidate_mod (t k h : Nat) (hh : h < msPerDay) :
    (dayStart t + k * msPerDay + h) % msPerDay = h := by
  unfold dayStart msPerDay at *; omega

theorem lt_candidate_iff (t k h : Nat) :
    t < dayStart t + k * msPerDay + h ↔ t % msPerDay < k * msPerDay + h := by
  unfold dayStart msPerDay; omega

theorem lt_candidate_of_pos (t k h : Nat) (hk : 1 ≤ k) :
    t < dayStart t + k * msPerDay + h := by
  unfold dayStart msPerDay; omega


/-! ### Injectivity of the timestamp rendering and key facts -/

/-- Decimal value of a digit list (left inverse of the rendering). -/
def chVal (l : List Char) : Nat := l.foldl (fun a c => 10 * a + (c.toNat - 48)) 0

theorem chVal_append_singleton (xs : List Char) (c : Char) :
    chVal (xs ++ [c]) = 10 * chVal xs + (c.toNat - 48) := by
  unfold chVal
  rw [List.foldl_append]
  rfl

theorem dg_toNat (n : Nat) (h : n < 10) : (dg n).toNat - 48 = n := by
  interval_cases n <;> rfl

theorem decCharsAux_chVal : ∀ fuel n, n < fuel → chVal (decCharsAux fuel n) = n := by
  intro fuel
  induction fuel with
  | zero => intro n h; omega
  | succ fuel ih =>
    intro n h
    by_cases h10 : n < 10
    · simp only [decCharsAux, if_pos h10]
      have : chVal [dg n] = (dg n).toNat - 48 := by unfold chVal; simp
      rw [this, dg_toNat n h10]
    · simp only [decCharsAux, if_neg h10]
      rw [chVal_append_singleton, ih (n / 10) (by omega), dg_toNat (n % 10) (by omega)]
      omega

theorem chVal_decChars (n : Nat) : chVal (decChars n) = n :=
  decCharsAux_chVal (n + 1) n (Nat.lt_succ_self n)

theorem decChars_injective {a b : Nat} (h : decChars a = decChars b) : a = b := by
  have ha := chVal_decChars a
  have hb := chVal_decChars b
  rw [h] at ha
  omega

theorem isoString_injective {a b : Nat} (h : isoString a = isoString b) : a = b := by
  apply decChars_injective
  have : (isoString a).data = (isoString b).data := by rw [h]
  exact this

theorem mkKey_data (T L : String) (t : Nat) :
    (mkKey T t L).data = ((T.data ++ ['|']) ++ decChars t ++ ['|']) ++ L.data := by
  simp [mkKey, String.data_append, isoString]

theorem mkKey_time_inj {T L : String} {a b : Nat} (h : mkKey T a L = mkKey T b L) : a = b := by
  have hd : (mkKey T a L).data = (mkKey T b L).data := by rw [h]
  rw [mkKey_data, mkKey_data] at hd
  have h1 := List.append_cancel_right hd
  have h2 := List.append_cancel_right h1
  have h3 := List.append_cancel_left h2
  exact decChars_injective h3

theorem head_append_of_head {l₁ l₂ : List Char} {c : Char} (h : l₁.head? = some c) :
    (l₁ ++ l₂).head? = some c := by
  cases l₁ with
  | nil => simp at h
  | cons a l => simpa using h

theorem mkKey_head {T : String} {c : Char} (hT : T.data.head? = some c) (t : Nat) (L : String) :
    (mkKey T t L).data.head? = some c := by
  rw [mkKey_data]
  rw [List.append_assoc, List.append_assoc, List.append_assoc]
  exact head_append_of_head hT

theorem mkKey_ne_of_head {T₁ T₂ : String} {c₁ c₂ : Char} (h₁ : T₁.data.head? = some c₁)
    (h₂ : T₂.data.head? = some c₂) (hne : c₁ ≠ c₂) (a b : Nat) (L₁ L₂ : String) :
    mkKey T₁ a L₁ ≠ mkKey T₂ b L₂ := by
  intro h
  apply hne
  have := mkKey_head h₁ a L₁
  rw [h, mkKey_head h₂ b L₂] at this
  exact Option.some.inj this.symm


/-! ### The deduplication map: first-position, last-value semantics -/

theorem insertPair_cond (m : List (String × ScrapedEvent)) (k : String) :
    (m.any fun p => p.1 == k) = true ↔ k ∈ m.map Prod.fst := by
  rw [List.any_eq_true]
  constructor
  · rintro ⟨p, hp, hc⟩
    exact (eq_of_beq hc) ▸ List.mem_map_of_mem Prod.fst hp
  · intro h
    obtain ⟨p, hp, he⟩ := List.mem_map.mp h
    exact ⟨p, hp, by simp [he]⟩

theorem insertPair_of_mem {m : List (String × ScrapedEvent)} {k : String}
    (h : k ∈ m.map Prod.fst) (v : ScrapedEvent) :
    insertPair m k v = m.map fun p => if p.1 == k then (k, v) else p := by
  unfold insertPair
  rw [if_pos ((insertPair_cond m k).mpr h)]

theorem insertPair_of_not_mem {m : List (String × ScrapedEvent)} {k : String}
    (h : ¬ k ∈ m.map Prod.fst) (v : ScrapedEvent) :
    insertPair m k v = m ++ [(k, v)] := by
  unfold insertPair
  rw [if_neg (fun hc => h ((insertPair_cond m k).mp hc))]

theorem map_fst_replace (m : List (String × ScrapedEvent)) (k : String) (v : ScrapedEvent) :
    ((m.map fun p => if p.1 == k then (k, v) else p).map Prod.fst) = m.map Prod.fst := by
  rw [List.map_map]
  apply List.map_congr_left
  intro p _
  by_cases h : p.1 = k
  · simp [h]
  · simp [h]

theorem mapFromList_concat (l : List ScrapedEvent) (e : ScrapedEvent) :
    mapFromList (l ++ [e]) = insertPair (mapFromList l) (eventKey e) e := by
  unfold mapFromList
  rw [List.foldl_append]
  rfl

theorem firstKeys_concat (l : List ScrapedEvent) (e : ScrapedEvent) :
    firstKeys (l ++ [e]) =
      if eventKey e ∈ firstKeys l then firstKeys l else firstKeys l ++ [eventKey e] := by
  unfold firstKeys
  rw [List.foldl_append]
  rfl

theorem mapFromList_fst (l : List ScrapedEvent) :
    (mapFromList l).map Prod.fst = firstKeys l := by
  induction l using List.reverseRecOn with
  | nil => rfl
  | append_singleton l e ih =>
    rw [mapFromList_concat, firstKeys_concat, ← ih]
    by_cases h : eventKey e ∈ (mapFromList l).map Prod.fst
    · rw [if_pos h, insertPair_of_mem h, map_fst_replace]
    · rw [if_neg h, insertPair_of_not_mem h, List.map_append]
      rfl

theorem mapFromList_fst_nodup (l : List ScrapedEvent) :
    ((mapFromList l).map Prod.fst).Nodup := by
  induction l using List.reverseRecOn with
  | nil => simp [mapFromList]
  | append_singleton l e ih =>
    rw [mapFromList_concat]
    by_cases h : eventKey e ∈ (mapFromList l).map Prod.fst
    · rw [insertPair_of_mem h, map_fst_replace]
      exact ih
    · rw [insertPair_of_not_mem h, List.map_append]
      rw [List.nodup_append]
      refine ⟨ih, List.nodup_singleton _, ?_⟩
      intro k hk hk1
      simp at hk1
      exact h (hk1 ▸ hk)

theorem mapFromList_mem_fst (l : List ScrapedEvent) (k : String) :
    k ∈ (mapFromList l).map Prod.fst ↔ k ∈ l.map eventKey := by
  induction l using List.reverseRecOn generalizing k with
  | nil => simp [mapFromList]
  | append_singleton l e ih =>
    rw [mapFromList_concat]
    by_cases h : eventKey e ∈ (mapFromList l).map Prod.fst
    · rw [insertPair_of_mem h, map_fst_replace, ih k]
      have he : eventKey e ∈ l.map eventKey := (ih (eventKey e)).mp h
      simp only [List.map_append, List.mem_append, List.map_cons, List.map_nil,
        List.mem_singleton]
      constructor
      · exact fun hk => Or.inl hk
      · rintro (hk | rfl)
        · exact hk
        · exact he
    · rw [insertPair_of_not_mem h, List.map_append]
      simp [List.mem_append, ih k]

theorem mapFromList_snd_props (l : List ScrapedEvent) :
    ∀ p ∈ mapFromList l,
      eventKey p.2 = p.1 ∧ p.2 ∈ l ∧
        (l.filter fun x => eventKey x == p.1).getLast? = some p.2 := by
  induction l using List.reverseRecOn with
  | nil => simp [mapFromList]
  | append_singleton l e ih =>
    intro p hp
    rw [mapFromList_concat] at hp
    by_cases h : eventKey e ∈ (mapFromList l).map Prod.fst
    · rw [insertPair_of_mem h] at hp
      obtain ⟨q, hq, hqe⟩ := List.mem_map.mp hp
      by_cases hqk : q.1 = eventKey e
      · rw [if_pos (by simpa using hqk)] at hqe
        subst hqe
        refine ⟨rfl, by simp, ?_⟩
        rw [List.filter_append]
        have hfe : ([e].filter fun x => eventKey x == eventKey e) = [e] := by simp
        rw [hfe, List.getLast?_concat]
      · rw [if_neg (by simpa using hqk)] at hqe
        subst hqe
        obtain ⟨h1, h2, h3⟩ := ih q hq
        refine ⟨h1, List.mem_append_left _ h2, ?_⟩
        rw [List.filter_append]
        have hfe : ([e].filter fun x => eventKey x == q.1) = [] := by
          rw [List.filter_eq_nil_iff]
          intro x hx
          simp only [List.mem_singleton] at hx
          subst hx
          simp only [beq_iff_eq]
          exact fun hc => hqk hc.symm
        rw [hfe, List.append_nil]
        exact h3
    · rw [insertPair_of_not_mem h] at hp
      rcases List.mem_append.mp hp with hm | hs
      · obtain ⟨h1, h2, h3⟩ := ih p hm
        have hp1 : p.1 ≠ eventKey e := by
          intro hc
          exact h (hc ▸ List.mem_map_of_mem Prod.fst hm)
        refine ⟨h1, List.mem_append_left _ h2, ?_⟩
        rw [List.filter_append]
        have hfe : ([e].filter fun x => eventKey x == p.1) = [] := by
          rw [List.filter_eq_nil_iff]
          intro x hx
          simp only [List.mem_singleton] at hx
          subst hx
          simp only [beq_iff_eq]
          exact fun hc => hp1 hc.symm
        rw [hfe, List.append_nil]
        exact h3
      · have hps : p = (eventKey e, e) := by simpa using hs
        subst hps
        refine ⟨rfl, by simp, ?_⟩
        rw [List.filter_append]
        have hfe : ([e].filter fun x => eventKey x == eventKey e) = [e] := by simp
        rw [hfe, List.getLast?_concat]

theorem dedupList_map_key (l : List ScrapedEvent) :
    (dedupList l).map eventKey = (mapFromList l).map Prod.fst := by
  unfold dedupList
  rw [List.map_map]
  apply List.map_congr_left
  intro p hp
  exact (mapFromList_snd_props l p hp).1

theorem dedupList_keys_nodup (l : List ScrapedEvent) :
    ((dedupList l).map eventKey).Nodup := by
  rw [dedupList_map_key]
  exact mapFromList_fst_nodup l

theorem dedupList_subset (l : List ScrapedEvent) : ∀ e ∈ dedupList l, e ∈ l := by
  intro e he
  obtain ⟨p, hp, rfl⟩ := List.mem_map.mp he
  exact (mapFromList_snd_props l p hp).2.1

theorem mapFromList_of_nodup (l : List ScrapedEvent) (h : (l.map eventKey).Nodup) :
    mapFromList l = l.map fun e => (eventKey e, e) := by
  induction l using List.reverseRecOn with
  | nil => rfl
  | append_singleton l e ih =>
    rw [List.map_append, List.nodup_append] at h
    obtain ⟨h1, _, h3⟩ := h
    have hne : ¬ eventKey e ∈ (mapFromList l).map Prod.fst := by
      rw [mapFromList_mem_fst]
      intro hc
      exact h3 hc (by simp)
    rw [mapFromList_concat, insertPair_of_not_mem hne, ih h1, List.map_append]
    rfl

theorem dedupList_eq_self (l : List ScrapedEvent) (h : (l.map eventKey).Nodup) :
    dedupList l = l := by
  unfold dedupList
  rw [mapFromList_of_nodup l h, List.map_map]
  have hc : (Prod.snd ∘ fun e : ScrapedEvent => (eventKey e, e)) = id := rfl
  rw [hc, List.map_id]

theorem assoc_filter_single (m : List (String × ScrapedEvent))
    (hm : (m.map Prod.fst).Nodup) : ∀ p ∈ m, (m.filter fun q => q.1 == p.1) = [p] := by
  induction m with
  | nil => simp
  | cons a m ih =>
    rw [List.map_cons, List.nodup_cons] at hm
    obtain ⟨ha, hm'⟩ := hm
    intro p hp
    rcases List.mem_cons.mp hp with rfl | hpm
    · have hrest : (m.filter fun q => q.1 == p.1) = [] := by
        rw [List.filter_eq_nil_iff]
        intro q hq hc
        exact ha (eq_of_beq hc ▸ List.mem_map_of_mem Prod.fst hq)
      simp [List.filter_cons, hrest]
    · have hne : a.1 ≠ p.1 := by
        intro hc
        exact ha (hc ▸ List.mem_map_of_mem Prod.fst hpm)
      have hcond : (a.1 == p.1) = false := by simpa using hne
      rw [List.filter_cons, hcond]
      simpa using ih hm' p hpm

theorem dedupList_filter_key (l : List ScrapedEvent) (k : String) :
    (dedupList l).filter (fun e => eventKey e == k) =
      ((mapFromList l).filter fun q => q.1 == k).map Prod.snd := by
  unfold dedupList
  rw [List.filter_map]
  congr 1
  apply List.filter_congr
  intro q hq
  simp only [Function.comp_apply]
  rw [(mapFromList_snd_props l q hq).1]


/-! ### The sort step: sorted, a permutation, and stable -/

theorem sortByStart_sorted (l : List ScrapedEvent) : List.Sorted byStart (sortByStart l) :=
  List.sorted_insertionSort byStart l

theorem sortByStart_perm (l : List ScrapedEvent) : List.Perm (sortByStart l) l :=
  List.perm_insertionSort byStart l

theorem filter_orderedInsert (a : ScrapedEvent) (l : List ScrapedEvent) (t : Nat) :
    (List.orderedInsert byStart a l).filter (fun e => e.startTime == t) =
      ((a :: l).filter fun e => e.startTime == t) := by
  induction l with
  | nil => rfl
  | cons b l ih =>
    by_cases h : byStart a b
    · simp only [List.orderedInsert, if_pos h]
    · simp only [List.orderedInsert, if_neg h]
      have hba : b.startTime < a.startTime := by
        unfold byStart at h
        omega
      by_cases hb : b.startTime = t
      · have ha : ¬ a.startTime = t := by omega
        simp [List.filter_cons, ih, hb, ha]
      · simp [List.filter_cons, ih, hb]

theorem sortByStart_stable (l : List ScrapedEvent) (t : Nat) :
    (sortByStart l).filter (fun e => e.startTime == t) =
      l.filter (fun e => e.startTime == t) := by
  unfold sortByStart
  induction l with
  | nil => rfl
  | cons a l ih =>
    simp only [List.insertionSort]
    rw [filter_orderedInsert, List.filter_cons, List.filter_cons, ih]

/-! ### Shapes of the generator outputs -/

theorem farmersMarketEvent_startTime (t : Nat) : (farmersMarketEvent t).startTime = t := rfl

theorem churchEvent_startTime (c : Church) (t : Nat) : (churchEvent c t).startTime = t := rfl

theorem communityEvent_startTime (tpl : CommunityTemplate) (t : Nat) :
    (communityEvent tpl t).startTime = t := rfl

theorem mem_farmersMarket (now : Nat) (e : ScrapedEvent) :
    e ∈ scrapeLexingtonFarmersMarket now ↔
      ∃ i, i < 4 ∧ now < farmersCandidate now i ∧
        farmersMarketEvent (farmersCandidate now i) = e := by
  unfold scrapeLexingtonFarmersMarket scrapeLexingtonFarmersMarketBody tryCatchList
  simp [List.mem_filterMap, List.mem_range, Option.ite_none_right_eq_some]

theorem mem_churchOccurrences (now : Nat) (c : Church) (e : ScrapedEvent) :
    e ∈ churchOccurrences now c ↔
      ∃ w, w < 8 ∧ now < churchBase now c + w * 7 * msPerDay ∧
        churchEvent c (churchBase now c + w * 7 * msPerDay) = e := by
  unfold churchOccurrences
  simp [List.mem_filterMap, List.mem_range, Option.ite_none_right_eq_some]

theorem mem_churchEvents (now : Nat) (e : ScrapedEvent) :
    e ∈ scrapeChurchEvents now ↔ ∃ c ∈ churches, e ∈ churchOccurrences now c := by
  unfold scrapeChurchEvents scrapeChurchEventsBody tryCatchList
  simp [List.mem_flatMap]

theorem mem_communityEvents (now : Nat) (e : ScrapedEvent) :
    e ∈ scrapeYardSalesAndCommunityEvents now ↔
      ∃ tpl ∈ communityEvents, now < communityCandidate now tpl ∧
        communityEvent tpl (communityCandidate now tpl) = e := by
  unfold scrapeYardSalesAndCommunityEvents scrapeYardSalesAndCommunityEventsBody tryCatchList
  simp [List.mem_filterMap, Option.ite_none_right_eq_some]

theorem farmers_future {now : Nat} {e : ScrapedEvent}
    (h : e ∈ scrapeLexingtonFarmersMarket now) : now < e.startTime := by
  rw [mem_farmersMarket] at h
  obtain ⟨i, _, hlt, rfl⟩ := h
  exact hlt

theorem church_future {now : Nat} {e : ScrapedEvent}
    (h : e ∈ scrapeChurchEvents now) : now < e.startTime := by
  rw [mem_churchEvents] at h
  obtain ⟨c, _, hc⟩ := h
  rw [mem_churchOccurrences] at hc
  obtain ⟨w, _, hlt, rfl⟩ := hc
  exact hlt

theorem community_future {now : Nat} {e : ScrapedEvent}
    (h : e ∈ scrapeYardSalesAndCommunityEvents now) : now < e.startTime := by
  rw [mem_communityEvents] at h
  obtain ⟨tpl, _, hlt, rfl⟩ := h
  exact hlt

theorem allEvents_future {now : Nat} {e : ScrapedEvent} (h : e ∈ allEventsList now) :
    now < e.startTime := by
  unfold allEventsList at h
  rcases List.mem_append.mp h with h1 | h2
  · rcases List.mem_append.mp h1 with hf | hc
    · exact farmers_future hf
    · exact church_future hc
  · exact community_future h2

theorem fetchAllEvents_eq (now : Nat) :
    fetchAllEvents now = sortByStart (dedupList (allEventsList now)) := rfl

theorem mem_fetchAllEvents (now : Nat) (e : ScrapedEvent) :
    e ∈ fetchAllEvents now ↔ e ∈ dedupList (allEventsList now) := by
  rw [fetchAllEvents_eq]
  exact (sortByStart_perm _).mem_iff

theorem fetch_future {now : Nat} {e : ScrapedEvent} (h : e ∈ fetchAllEvents now) :
    now < e.startTime :=
  allEvents_future (dedupList_subset _ _ ((mem_fetchAllEvents now e).mp h))


/-! ### Helper bounds and concrete shapes -/

theorem farmers_len (now : Nat) : (scrapeLexingtonFarmersMarket now).length ≤ 4 := by
  have h := List.length_filterMap_le
    (fun i => if now < farmersCandidate now i then
      some (farmersMarketEvent (farmersCandidate now i)) else none) (List.range 4)
  simpa [scrapeLexingtonFarmersMarket, scrapeLexingtonFarmersMarketBody, tryCatchList] using h

theorem churchOccurrences_len (now : Nat) (c : Church) :
    (churchOccurrences now c).length ≤ 8 := by
  have h := List.length_filterMap_le
    (fun week => if now < churchBase now c + week * 7 * msPerDay then
      some (churchEvent c (churchBase now c + week * 7 * msPerDay)) else none) (List.range 8)
  simpa [churchOccurrences] using h

theorem scrapeChurchEvents_eq (now : Nat) :
    scrapeChurchEvents now =
      churchOccurrences now southland ++ churchOccurrences now firstPresbyterian := by
  unfold scrapeChurchEvents scrapeChurchEventsBody tryCatchList churches
  simp [List.flatMap_cons]

/-- A record with the same composite key as `dupSampleB` but different content. -/
def dupSampleA : ScrapedEvent :=
  { title := "X", description := some "a", startTime := 5, location := some "L",
    imageUrl := none, sourceUrl := "u1", category := "food", isFree := true }

/-- A record with the same composite key as `dupSampleA` but different content. -/
def dupSampleB : ScrapedEvent :=
  { title := "X", description := some "b", startTime := 5, location := some "L",
    imageUrl := none, sourceUrl := "u2", category := "community", isFree := false }

/-! ### Claims -/

/-- Claim C1: in the deduplication step of `fetchAllEvents`, when two or more records of
the combined list share a composite key, exactly one record with that key survives, the
surviving records appear in first-occurrence order of their keys (so the survivor holds
the position of the first record with that key), and the survivor's contents are those of
the last record with that key. -/
theorem claim_C1_dedup_first_position_last_value
    (l : List ScrapedEvent) (k : String)
    (h : 2 ≤ (l.filter fun e => eventKey e == k).length) :
    ((dedupList l).filter fun e => eventKey e == k) =
        ((l.filter fun e => eventKey e == k).getLast?).toList
    ∧ ((dedupList l).filter fun e => eventKey e == k).length = 1
    ∧ (dedupList l).map eventKey = firstKeys l := by
  have hne : (l.filter fun e => eventKey e == k) ≠ [] := by
    intro hc
    rw [hc] at h
    simp at h
  obtain ⟨e0, he0⟩ := List.exists_mem_of_ne_nil _ hne
  have he0l : e0 ∈ l := List.mem_of_mem_filter he0
  have he0b : (eventKey e0 == k) = true := (List.mem_filter.mp he0).2
  have he0k : eventKey e0 = k := eq_of_beq he0b
  have hkmem : k ∈ l.map eventKey := he0k ▸ List.mem_map_of_mem eventKey he0l
  have hkfst : k ∈ (mapFromList l).map Prod.fst := (mapFromList_mem_fst l k).mpr hkmem
  obtain ⟨p, hp, hpk⟩ := List.mem_map.mp hkfst
  have hfil : ((mapFromList l).filter fun q => q.1 == k) = [p] := by
    have hs := assoc_filter_single (mapFromList l) (mapFromList_fst_nodup l) p hp
    rw [hpk] at hs
    exact hs
  have hkey : (dedupList l).filter (fun e => eventKey e == k) = [p.2] := by
    rw [dedupList_filter_key, hfil]
    rfl
  have hlast : (l.filter fun e => eventKey e == k).getLast? = some p.2 := by
    have hs := (mapFromList_snd_props l p hp).2.2
    rw [hpk] at hs
    exact hs
  refine ⟨?_, ?_, ?_⟩
  · rw [hkey, hlast]
    rfl
  · rw [hkey]
    rfl
  · rw [dedupList_map_key, mapFromList_fst]

/-- Witness for C1 at a concrete duplicate pair: the later record's contents survive in
the earlier record's position. -/
theorem claim_C1_witness :
    2 ≤ ([dupSampleA, dupSampleB].filter fun e => eventKey e == "X|5|L").length ∧
    (((dedupList [dupSampleA, dupSampleB]).filter fun e => eventKey e == "X|5|L") =
        (([dupSampleA, dupSampleB].filter fun e => eventKey e == "X|5|L").getLast?).toList
      ∧ ((dedupList [dupSampleA, dupSampleB]).filter fun e => eventKey e == "X|5|L").length = 1
      ∧ (dedupList [dupSampleA, dupSampleB]).map eventKey = firstKeys [dupSampleA, dupSampleB]) :=
  ⟨by decide,
    claim_C1_dedup_first_position_last_value [dupSampleA, dupSampleB] "X|5|L" (by decide)⟩

/-- Claim C2: for every `now`, every record returned by `fetchAllEvents` and by each of
the three generators has `startTime` strictly greater than `now`. -/
theorem claim_C2_all_future (now : Nat) (e : ScrapedEvent) :
    (e ∈ fetchAllEvents now → now < e.startTime) ∧
    (e ∈ scrapeLexingtonFarmersMarket now → now < e.startTime) ∧
    (e ∈ scrapeChurchEvents now → now < e.startTime) ∧
    (e ∈ scrapeYardSalesAndCommunityEvents now → now < e.startTime) :=
  ⟨fun h => fetch_future h, fun h => farmers_future h, fun h => church_future h,
    fun h => community_future h⟩

/-- Witness for C2 at `now = 0` with one concrete member of each list. -/
theorem claim_C2_witness :
    (farmersMarketEvent 201600000 ∈ fetchAllEvents 0 ∧
      0 < (farmersMarketEvent 201600000).startTime) ∧
    (farmersMarketEvent 201600000 ∈ scrapeLexingtonFarmersMarket 0 ∧
      0 < (farmersMarketEvent 201600000).startTime) ∧
    (churchEvent southland 295200000 ∈ scrapeChurchEvents 0 ∧
      0 < (churchEvent southland 295200000).startTime) ∧
    (communityEvent paintSipTemplate 414000000 ∈ scrapeYardSalesAndCommunityEvents 0 ∧
      0 < (communityEvent paintSipTemplate 414000000).startTime) :=
  ⟨⟨by decide, (claim_C2_all_future 0 (farmersMarketEvent 201600000)).1 (by decide)⟩,
    ⟨by decide, (claim_C2_all_future 0 (farmersMarketEvent 201600000)).2.1 (by decide)⟩,
    ⟨by decide, (claim_C2_all_future 0 (churchEvent southland 295200000)).2.2.1 (by decide)⟩,
    ⟨by decide,
      (claim_C2_all_future 0 (communityEvent paintSipTemplate 414000000)).2.2.2 (by decide)⟩⟩

/-- Claim C3: the list returned by `fetchAllEvents` is sorted non-decreasing by
`startTime` (pairwise, hence for all adjacent pairs), and the sort is stable: for every
start time, the records with that start time appear exactly as they did after the
deduplication step. -/
theorem claim_C3_sorted_and_stable (now : Nat) :
    List.Sorted byStart (fetchAllEvents now) ∧
    List.Chain' byStart (fetchAllEvents now) ∧
    ∀ t, (fetchAllEvents now).filter (fun e => e.startTime == t) =
      (dedupList (allEventsList now)).filter (fun e => e.startTime == t) := by
  refine ⟨?_, ?_, ?_⟩
  · rw [fetchAllEvents_eq]
    exact sortByStart_sorted _
  · rw [fetchAllEvents_eq]
    exact (sortByStart_sorted _).chain'
  · intro t
    rw [fetchAllEvents_eq]
    exact sortByStart_stable _ t

/-- Claim C5: no two records in the output of `fetchAllEvents` share a composite key. -/
theorem claim_C5_no_duplicate_keys (now : Nat) :
    ((fetchAllEvents now).map eventKey).Nodup := by
  have hperm : List.Perm ((fetchAllEvents now).map eventKey)
      ((dedupList (allEventsList now)).map eventKey) := by
    rw [fetchAllEvents_eq]
    exact (sortByStart_perm _).map eventKey
  exact (dedupList_keys_nodup _).perm hperm.symm

/-- Claim C6: neither `fetchAllEvents` nor any generator raises to its caller: each is a
total function whose `try`-body result passes through `tryCatchList`, which maps every
error to the empty list; and within the aggregation, emptying one generator's
contribution leaves the pipeline over the other two untouched. -/
theorem claim_C6_never_raises (now : Nat) (err : String) (f c y : List ScrapedEvent) :
    tryCatchList (Except.error err) = [] ∧
    fetchAllEvents now = tryCatchList (fetchAllEventsBody now) ∧
    scrapeLexingtonFarmersMarket now = tryCatchList (scrapeLexingtonFarmersMarketBody now) ∧
    scrapeChurchEvents now = tryCatchList (scrapeChurchEventsBody now) ∧
    scrapeYardSalesAndCommunityEvents now =
      tryCatchList (scrapeYardSalesAndCommunityEventsBody now) ∧
    fetchAllEventsCore [] c y = sortByStart (dedupList (c ++ y)) ∧
    fetchAllEventsCore f [] y = sortByStart (dedupList (f ++ y)) ∧
    fetchAllEventsCore f c [] = sortByStart (dedupList (f ++ c)) :=
  ⟨rfl, rfl, rfl, rfl, rfl, rfl, by simp [fetchAllEventsCore], by simp [fetchAllEventsCore]⟩

/-- Claim C7: the farmers-market generator returns at most 4 records; the church
generator returns at most 8 records per institution and at most 16 in total. -/
theorem claim_C7_bounded_output (now : Nat) :
    (scrapeLexingtonFarmersMarket now).length ≤ 4 ∧
    (∀ c ∈ churches, (churchOccurrences now c).length ≤ 8) ∧
    (scrapeChurchEvents now).length ≤ 16 := by
  refine ⟨farmers_len now, fun c _ => churchOccurrences_len now c, ?_⟩
  rw [scrapeChurchEvents_eq, List.length_append]
  have h1 := churchOccurrences_len now southland
  have h2 := churchOccurrences_len now firstPresbyterian
  omega

/-- Witness for C7's per-institution bound at `now = 0`, `c = southland`. -/
theorem claim_C7_witness :
    southland ∈ churches ∧ (churchOccurrences 0 southland).length ≤ 8 :=
  ⟨by decide, (claim_C7_bounded_output 0).2.1 southland (by decide)⟩


/-! ### Scenario claims about the generators -/

theorem hour8_lt_day : 8 * msPerHour < msPerDay := by
  unfold msPerHour msPerDay
  omega

theorem hour19_lt_day : 19 * msPerHour < msPerDay := by
  unfold msPerHour msPerDay
  omega

/-- Claim C4: on a Monday at 09:00 local time, the farmers-market generator emits
exactly the four records for the Saturdays 5, 12, 19 and 26 days later, each a Saturday
at 08:00:00.000 local time and each strictly after `now`. -/
theorem claim_C4_monday_four_saturdays (now : Nat) (h1 : getDay now = 1)
    (h2 : now % msPerDay = 9 * msPerHour) :
    scrapeLexingtonFarmersMarket now =
      [farmersMarketEvent (dayStart now + 5 * msPerDay + 8 * msPerHour),
       farmersMarketEvent (dayStart now + 12 * msPerDay + 8 * msPerHour),
       farmersMarketEvent (dayStart now + 19 * msPerDay + 8 * msPerHour),
       farmersMarketEvent (dayStart now + 26 * msPerDay + 8 * msPerHour)] ∧
    ∀ e ∈ scrapeLexingtonFarmersMarket now,
      getDay e.startTime = 6 ∧ e.startTime % msPerDay = 8 * msPerHour ∧ now < e.startTime := by
  have hc : ∀ i, farmersCandidate now i =
      dayStart now + (5 + i * 7) * msPerDay + 8 * msPerHour := by
    intro i
    unfold farmersCandidate
    rw [h1]
  have hguard : ∀ i, now < farmersCandidate now i := by
    intro i
    rw [hc i, lt_candidate_iff, h2]
    unfold msPerDay msPerHour
    omega
  have hlist : scrapeLexingtonFarmersMarket now =
      [farmersMarketEvent (dayStart now + 5 * msPerDay + 8 * msPerHour),
       farmersMarketEvent (dayStart now + 12 * msPerDay + 8 * msPerHour),
       farmersMarketEvent (dayStart now + 19 * msPerDay + 8 * msPerHour),
       farmersMarketEvent (dayStart now + 26 * msPerDay + 8 * msPerHour)] := by
    unfold scrapeLexingtonFarmersMarket scrapeLexingtonFarmersMarketBody tryCatchList
    rw [show List.range 4 = [0, 1, 2, 3] from rfl]
    simp only [List.filterMap_cons, List.filterMap_nil, if_pos (hguard 0), if_pos (hguard 1),
      if_pos (hguard 2), if_pos (hguard 3)]
    rw [hc 0, hc 1, hc 2, hc 3]
  refine ⟨hlist, ?_⟩
  intro e he
  rw [mem_farmersMarket] at he
  obtain ⟨i, hi, hlt, rfl⟩ := he
  rw [farmersMarketEvent_startTime, hc i]
  refine ⟨?_, ?_, ?_⟩
  · rw [candidate_getDay now (5 + i * 7) (8 * msPerHour) hour8_lt_day, h1]
    omega
  · exact candidate_mod now (5 + i * 7) (8 * msPerHour) hour8_lt_day
  · rw [← hc i]
    exact hguard i

/-- Witness for C4 at the concrete Monday 1970-01-05 09:00. -/
theorem claim_C4_witness :
    getDay 378000000 = 1 ∧ 378000000 % msPerDay = 9 * msPerHour ∧
    (scrapeLexingtonFarmersMarket 378000000 =
      [farmersMarketEvent (dayStart 378000000 + 5 * msPerDay + 8 * msPerHour),
       farmersMarketEvent (dayStart 378000000 + 12 * msPerDay + 8 * msPerHour),
       farmersMarketEvent (dayStart 378000000 + 19 * msPerDay + 8 * msPerHour),
       farmersMarketEvent (dayStart 378000000 + 26 * msPerDay + 8 * msPerHour)] ∧
    ∀ e ∈ scrapeLexingtonFarmersMarket 378000000,
      getDay e.startTime = 6 ∧ e.startTime % msPerDay = 8 * msPerHour ∧
        378000000 < e.startTime) :=
  ⟨by decide, by decide, claim_C4_monday_four_saturdays 378000000 (by decide) (by decide)⟩

theorem communityEvent_title (t : CommunityTemplate) (s : Nat) :
    (communityEvent t s).title = t.title := rfl

theorem community_guard (now : Nat) (t : CommunityTemplate) (ht : 1 ≤ t.date) :
    now < communityCandidate now t :=
  lt_candidate_of_pos now t.date (t.time * msPerHour) ht

theorem community_eq (now : Nat) :
    scrapeYardSalesAndCommunityEvents now =
      [communityEvent cleanupTemplate (communityCandidate now cleanupTemplate),
       communityEvent yardSaleTemplate (communityCandidate now yardSaleTemplate),
       communityEvent paintSipTemplate (communityCandidate now paintSipTemplate)] := by
  unfold scrapeYardSalesAndCommunityEvents scrapeYardSalesAndCommunityEventsBody tryCatchList
    communityEvents
  simp only [List.filterMap_cons, List.filterMap_nil,
    if_pos (community_guard now cleanupTemplate (by decide)),
    if_pos (community_guard now yardSaleTemplate (by decide)),
    if_pos (community_guard now paintSipTemplate (by decide))]

/-- Claim C8: with `now` a Tuesday, the one-off community template with `offsetDays = 4`
("Paint & Sip Night", hour 19) yields exactly one record, dated the following Saturday at
the template's hour, and it appears in the final output only if its start is after
`now`. -/
theorem claim_C8_tuesday_saturday_oneoff (now : Nat) (h : getDay now = 2) :
    ((scrapeYardSalesAndCommunityEvents now).filter fun e =>
        e.title == "Paint & Sip Night")
      = [communityEvent paintSipTemplate (dayStart now + 4 * msPerDay + 19 * msPerHour)] ∧
    getDay (dayStart now + 4 * msPerDay + 19 * msPerHour) = 6 ∧
    (dayStart now + 4 * msPerDay + 19 * msPerHour) % msPerDay = 19 * msPerHour ∧
    (communityEvent paintSipTemplate (dayStart now + 4 * msPerDay + 19 * msPerHour)
        ∈ fetchAllEvents now →
      now < dayStart now + 4 * msPerDay + 19 * msPerHour) := by
  have hps : communityCandidate now paintSipTemplate =
      dayStart now + 4 * msPerDay + 19 * msPerHour := rfl
  refine ⟨?_, ?_, ?_, ?_⟩
  · rw [community_eq, ← hps]
    have h1 : (cleanupTemplate.title == "Paint & Sip Night") = false := by decide
    have h2 : (yardSaleTemplate.title == "Paint & Sip Night") = false := by decide
    have h3 : (paintSipTemplate.title == "Paint & Sip Night") = true := by decide
    simp only [List.filter_cons, List.filter_nil, communityEvent_title, h1, h2, h3]
    simp
  · rw [candidate_getDay now 4 (19 * msPerHour) hour19_lt_day, h]
  · exact candidate_mod now 4 (19 * msPerHour) hour19_lt_day
  · intro hm
    have hlt := fetch_future hm
    rwa [communityEvent_startTime] at hlt

/-- Witness for C8 at the concrete Tuesday 1970-01-06 00:00: the record is in the final
output and its start time is after `now`. -/
theorem claim_C8_witness :
    getDay 432000000 = 2 ∧
    (((scrapeYardSalesAndCommunityEvents 432000000).filter fun e =>
        e.title == "Paint & Sip Night")
      = [communityEvent paintSipTemplate
          (dayStart 432000000 + 4 * msPerDay + 19 * msPerHour)] ∧
    getDay (dayStart 432000000 + 4 * msPerDay + 19 * msPerHour) = 6 ∧
    (dayStart 432000000 + 4 * msPerDay + 19 * msPerHour) % msPerDay = 19 * msPerHour) ∧
    communityEvent paintSipTemplate (dayStart 432000000 + 4 * msPerDay + 19 * msPerHour)
      ∈ fetchAllEvents 432000000 ∧
    432000000 < dayStart 432000000 + 4 * msPerDay + 19 * msPerHour := by
  have hc := claim_C8_tuesday_saturday_oneoff 432000000 (by decide)
  exact ⟨by decide, ⟨hc.1, hc.2.1, hc.2.2.1⟩, by decide, hc.2.2.2 (by decide)⟩

/-- Claim C10: only the first (same-day) weekly candidate of the farmers-market
generator can fail the future-only filter; the generator emits exactly 3 records when
`now` is a Saturday at or after 08:00:00.000 local time, and exactly 4 otherwise. -/
theorem claim_C10_farmers_count (now : Nat) :
    scrapeLexingtonFarmersMarket now =
      (if now < farmersCandidate now 0 then [farmersMarketEvent (farmersCandidate now 0)]
       else []) ++
        [farmersMarketEvent (farmersCandidate now 1), farmersMarketEvent (farmersCandidate now 2),
         farmersMarketEvent (farmersCandidate now 3)] ∧
    (scrapeLexingtonFarmersMarket now).length =
      if getDay now = 6 ∧ 8 * msPerHour ≤ now % msPerDay then 3 else 4 := by
  have hg : ∀ i, 1 ≤ i → now < farmersCandidate now i := by
    intro i hi
    unfold farmersCandidate
    exact lt_candidate_of_pos now _ _ (by omega)
  have hguard0 : (now < farmersCandidate now 0) ↔
      ¬ (getDay now = 6 ∧ 8 * msPerHour ≤ now % msPerDay) := by
    unfold farmersCandidate getDay dayStart msPerDay msPerHour
    omega
  have hlist : scrapeLexingtonFarmersMarket now =
      (if now < farmersCandidate now 0 then [farmersMarketEvent (farmersCandidate now 0)]
       else []) ++
        [farmersMarketEvent (farmersCandidate now 1), farmersMarketEvent (farmersCandidate now 2),
         farmersMarketEvent (farmersCandidate now 3)] := by
    unfold scrapeLexingtonFarmersMarket scrapeLexingtonFarmersMarketBody tryCatchList
    rw [show List.range 4 = [0, 1, 2, 3] from rfl]
    by_cases h0 : now < farmersCandidate now 0
    · simp [List.filterMap_cons, h0, hg 1 (by omega), hg 2 (by omega), hg 3 (by omega)]
    · simp [List.filterMap_cons, h0, hg 1 (by omega), hg 2 (by omega), hg 3 (by omega)]
  refine ⟨hlist, ?_⟩
  rw [hlist, List.length_append]
  by_cases hsat : getDay now = 6 ∧ 8 * msPerHour ≤ now % msPerDay
  · rw [if_pos hsat, if_neg (fun hgg => (hguard0.mp hgg) hsat)]
    rfl
  · rw [if_neg hsat, if_pos (hguard0.mpr hsat)]
    rfl


/-! ### C9: the three generators never collide on a composite key -/

theorem filterMap_if_sublist {α β : Type} (l : List α) (p : α → Prop) [DecidablePred p]
    (g : α → β) :
    (l.filterMap fun x => if p x then some (g x) else none).Sublist (l.map g) := by
  induction l with
  | nil => simp
  | cons a l ih =>
    rw [List.filterMap_cons, List.map_cons]
    by_cases h : p a
    · rw [if_pos h]
      exact List.Sublist.cons₂ _ ih
    · rw [if_neg h]
      exact List.Sublist.cons _ ih

/-- All four weekly candidates of the farmers-market generator, unfiltered. -/
def farmersCands (now : Nat) : List ScrapedEvent :=
  (List.range 4).map fun i => farmersMarketEvent (farmersCandidate now i)

/-- All eight weekly candidates of one church, unfiltered. -/
def churchCands (now : Nat) (c : Church) : List ScrapedEvent :=
  (List.range 8).map fun week => churchEvent c (churchBase now c + week * 7 * msPerDay)

/-- All three community candidates, unfiltered. -/
def communityCands (now : Nat) : List ScrapedEvent :=
  communityEvents.map fun t => communityEvent t (communityCandidate now t)

def allCands (now : Nat) : List ScrapedEvent :=
  (farmersCands now ++ (churchCands now southland ++ churchCands now firstPresbyterian)) ++
    communityCands now

theorem farmers_sublist (now : Nat) :
    (scrapeLexingtonFarmersMarket now).Sublist (farmersCands now) :=
  filterMap_if_sublist (List.range 4) (fun i => now < farmersCandidate now i)
    (fun i => farmersMarketEvent (farmersCandidate now i))

theorem church_sublist (now : Nat) (c : Church) :
    (churchOccurrences now c).Sublist (churchCands now c) :=
  filterMap_if_sublist (List.range 8) (fun week => now < churchBase now c + week * 7 * msPerDay)
    (fun week => churchEvent c (churchBase now c + week * 7 * msPerDay))

theorem community_sublist (now : Nat) :
    (scrapeYardSalesAndCommunityEvents now).Sublist (communityCands now) :=
  filterMap_if_sublist communityEvents (fun t => now < communityCandidate now t)
    (fun t => communityEvent t (communityCandidate now t))

theorem allEvents_sublist (now : Nat) : (allEventsList now).Sublist (allCands now) := by
  unfold allEventsList allCands
  refine List.Sublist.append (List.Sublist.append (farmers_sublist now) ?_)
    (community_sublist now)
  rw [scrapeChurchEvents_eq]
  exact List.Sublist.append (church_sublist now southland) (church_sublist now firstPresbyterian)

theorem key_farmers (t : Nat) : eventKey (farmersMarketEvent t) =
    mkKey "Downtown Farmers Market" t "Tandy Centennial Park, Lexington, KY" := rfl

theorem key_church (c : Church) (t : Nat) : eventKey (churchEvent c t) =
    mkKey (c.name ++ ": " ++ c.event) t c.location := rfl

theorem key_community (tpl : CommunityTemplate) (t : Nat) : eventKey (communityEvent tpl t) =
    mkKey tpl.title t tpl.location := rfl

theorem farmersCandidate_inj (now : Nat) {i j : Nat}
    (h : farmersCandidate now i = farmersCandidate now j) : i = j := by
  unfold farmersCandidate msPerDay msPerHour at h
  omega

theorem churchTime_inj {B i j : Nat}
    (h : B + i * 7 * msPerDay = B + j * 7 * msPerDay) : i = j := by
  unfold msPerDay at h
  omega

theorem headD : ("Downtown Farmers Market" : String).data.head? = some 'D' := by decide

theorem headS : (southland.name ++ ": " ++ southland.event).data.head? = some 'S' := by decide

theorem headF : (firstPresbyterian.name ++ ": " ++ firstPresbyterian.event).data.head? =
    some 'F' := by decide

theorem headC : cleanupTemplate.title.data.head? = some 'C' := by decide

theorem headE : yardSaleTemplate.title.data.head? = some 'E' := by decide

theorem headP : paintSipTemplate.title.data.head? = some 'P' := by decide

theorem farmersCands_pairwise (now : Nat) :
    (farmersCands now).Pairwise fun a b => eventKey a ≠ eventKey b := by
  unfold farmersCands
  rw [List.pairwise_map]
  refine (List.pairwise_lt_range 4).imp ?_
  intro i j hij hk
  rw [key_farmers, key_farmers] at hk
  exact absurd (farmersCandidate_inj now (mkKey_time_inj hk)) (Nat.ne_of_lt hij)

theorem churchCands_pairwise (now : Nat) (c : Church) :
    (churchCands now c).Pairwise fun a b => eventKey a ≠ eventKey b := by
  unfold churchCands
  rw [List.pairwise_map]
  refine (List.pairwise_lt_range 8).imp ?_
  intro i j hij hk
  rw [key_church, key_church] at hk
  exact absurd (churchTime_inj (mkKey_time_inj hk)) (Nat.ne_of_lt hij)

theorem mem_farmersCands {now : Nat} {e : ScrapedEvent} (h : e ∈ farmersCands now) :
    ∃ i, e = farmersMarketEvent (farmersCandidate now i) := by
  unfold farmersCands at h
  obtain ⟨i, _, rfl⟩ := List.mem_map.mp h
  exact ⟨i, rfl⟩

theorem mem_churchCands {now : Nat} {c : Church} {e : ScrapedEvent}
    (h : e ∈ churchCands now c) :
    ∃ w, e = churchEvent c (churchBase now c + w * 7 * msPerDay) := by
  unfold churchCands at h
  obtain ⟨w, _, rfl⟩ := List.mem_map.mp h
  exact ⟨w, rfl⟩

theorem mem_communityCands {now : Nat} {e : ScrapedEvent} (h : e ∈ communityCands now) :
    e = communityEvent cleanupTemplate (communityCandidate now cleanupTemplate) ∨
    e = communityEvent yardSaleTemplate (communityCandidate now yardSaleTemplate) ∨
    e = communityEvent paintSipTemplate (communityCandidate now paintSipTemplate) := by
  unfold communityCands communityEvents at h
  simp only [List.map_cons, List.map_nil, List.mem_cons, List.not_mem_nil, or_false] at h
  exact h

theorem communityCands_pairwise (now : Nat) :
    (communityCands now).Pairwise fun a b => eventKey a ≠ eventKey b := by
  unfold communityCands communityEvents
  simp only [List.map_cons, List.map_nil]
  refine List.Pairwise.cons ?_ (List.Pairwise.cons ?_
    (List.Pairwise.cons (fun b hb => absurd hb (List.not_mem_nil b)) List.Pairwise.nil))
  · intro b hb
    rcases List.mem_cons.mp hb with rfl | hb2
    · rw [key_community, key_community]
      exact mkKey_ne_of_head headC headE (by decide) _ _ _ _
    · rcases List.mem_cons.mp hb2 with rfl | hb3
      · rw [key_community, key_community]
        exact mkKey_ne_of_head headC headP (by decide) _ _ _ _
      · exact absurd hb3 (List.not_mem_nil b)
  · intro b hb
    rcases List.mem_cons.mp hb with rfl | hb2
    · rw [key_community, key_community]
      exact mkKey_ne_of_head headE headP (by decide) _ _ _ _
    · exact absurd hb2 (List.not_mem_nil b)

theorem allCands_pairwise (now : Nat) :
    (allCands now).Pairwise fun a b => eventKey a ≠ eventKey b := by
  unfold allCands
  rw [List.pairwise_append, List.pairwise_append, List.pairwise_append]
  refine ⟨⟨farmersCands_pairwise now,
    ⟨churchCands_pairwise now southland, churchCands_pairwise now firstPresbyterian, ?_⟩,
      ?_⟩, communityCands_pairwise now, ?_⟩
  · intro a ha b hb
    obtain ⟨i, rfl⟩ := mem_churchCands ha
    obtain ⟨j, rfl⟩ := mem_churchCands hb
    rw [key_church, key_church]
    exact mkKey_ne_of_head headS headF (by decide) _ _ _ _
  · intro a ha b hb
    obtain ⟨i, rfl⟩ := mem_farmersCands ha
    rcases List.mem_append.mp hb with hbs | hbf
    · obtain ⟨j, rfl⟩ := mem_churchCands hbs
      rw [key_farmers, key_church]
      exact mkKey_ne_of_head headD headS (by decide) _ _ _ _
    · obtain ⟨j, rfl⟩ := mem_churchCands hbf
      rw [key_farmers, key_church]
      exact mkKey_ne_of_head headD headF (by decide) _ _ _ _
  · intro a ha b hb
    rcases List.mem_append.mp ha with haf | hasp
    · obtain ⟨i, rfl⟩ := mem_farmersCands haf
      rcases mem_communityCands hb with rfl | rfl | rfl
      · rw [key_farmers, key_community]
        exact mkKey_ne_of_head headD headC (by decide) _ _ _ _
      · rw [key_farmers, key_community]
        exact mkKey_ne_of_head headD headE (by decide) _ _ _ _
      · rw [key_farmers, key_community]
        exact mkKey_ne_of_head headD headP (by decide) _ _ _ _
    · rcases List.mem_append.mp hasp with has | hap
      · obtain ⟨i, rfl⟩ := mem_churchCands has
        rcases mem_communityCands hb with rfl | rfl | rfl
        · rw [key_church, key_community]
          exact mkKey_ne_of_head headS headC (by decide) _ _ _ _
        · rw [key_church, key_community]
          exact mkKey_ne_of_head headS headE (by decide) _ _ _ _
        · rw [key_church, key_community]
          exact mkKey_ne_of_head headS headP (by decide) _ _ _ _
      · obtain ⟨i, rfl⟩ := mem_churchCands hap
        rcases mem_communityCands hb with rfl | rfl | rfl
        · rw [key_church, key_community]
          exact mkKey_ne_of_head headF headC (by decide) _ _ _ _
        · rw [key_church, key_community]
          exact mkKey_ne_of_head headF headE (by decide) _ _ _ _
        · rw [key_church, key_community]
          exact mkKey_ne_of_head headF headP (by decide) _ _ _ _

theorem allEvents_keys_nodup (now : Nat) : ((allEventsList now).map eventKey).Nodup := by
  have hs : (allEventsList now).Pairwise fun a b => eventKey a ≠ eventKey b :=
    (allCands_pairwise now).sublist (allEvents_sublist now)
  show List.Pairwise (fun a b => a ≠ b) ((allEventsList now).map eventKey)
  rw [List.pairwise_map]
  exact hs

/-- Claim C9: for every `now`, no two records across the three generators share a
composite key, so the deduplication step removes nothing: `fetchAllEvents` equals the
pipeline with deduplication omitted, and its output length is the sum of the three
generators' output lengths. -/
theorem claim_C9_dedup_is_noop (now : Nat) :
    ((allEventsList now).map eventKey).Nodup ∧
    dedupList (allEventsList now) = allEventsList now ∧
    fetchAllEvents now = sortByStart (allEventsList now) ∧
    (fetchAllEvents now).length =
      (scrapeLexingtonFarmersMarket now).length + (scrapeChurchEvents now).length +
        (scrapeYardSalesAndCommunityEvents now).length := by
  have hnd := allEvents_keys_nodup now
  refine ⟨hnd, dedupList_eq_self _ hnd, ?_, ?_⟩
  · rw [fetchAllEvents_eq, dedupList_eq_self _ hnd]
  · rw [fetchAllEvents_eq, dedupList_eq_self _ hnd, (sortByStart_perm _).length_eq]
    unfold allEventsList
    rw [List.length_append, List.length_append]

end Scrapers
